import Mathlib

/-!
Shallow embedding of the University Challenge practice game engine
(src/artifact-component.tsx).

The component is a single-threaded state machine driven by discrete user
intents.  Every React event handler reads the state snapshot of the render
that created it and queues updates that apply after it returns, so each
handler is embedded as a pure function on an explicit `EngineState` record:
all reads come from the input state, and the queued updates form the output
state.  The `useEffect` at lines 82-103 (the session-statistics append that
fires when `gameState` becomes `ready`) is applied as part of every step,
guarded by the game state actually having changed to `ready`.

The static question bank (`@/data/starters.json`, `@/data/bonuses.json`) is
not part of the repository source; the development is parameterized by the
two loaded pools `SAMPLE_STARTERS` and `SAMPLE_BONUSES`.  `Math.random`
appears in two places (the starter shuffle in `startGame` and the bonus draw
in `handleAnswer`); the nondeterminism is resolved by event payloads: the
shuffle result (constrained to be a permutation of the bank, which is what
`sort` with a random comparator produces) and the draw index.

Wall-clock values (`Date.now`, the `id` and `date` fields of a statistics
record, `elapsedTime`) are outside the embedding; the countdown is abstracted
into the `timerRunning` flag plus a `timeUp` event that is enabled exactly
when the timer is running in the `playing` state, and a buzz event carries
its measured latency.
-/

namespace UCGame

/-- `Question` (artifact-component.tsx lines 10-14). -/
structure Question where
  question : String
  answer : String
  points : Int
  deriving DecidableEq, Repr

/-- The anonymous `{question, answer}` element type of `BonusSet.questions`
(lines 18-21). -/
structure BonusQuestion where
  question : String
  answer : String
  deriving DecidableEq, Repr

/-- `BonusSet` (lines 16-22). -/
structure BonusSet where
  topic : String
  questions : List BonusQuestion
  deriving DecidableEq, Repr

/-- `GameState` (line 40): `'ready' | 'playing' | 'answer' | 'bonus' |
'session'`.  In the spec's naming: Idle, Presenting, Revealed, BonusRound,
RoundSummary. -/
inductive GameState where
  | ready
  | playing
  | answer
  | bonus
  | session
  deriving DecidableEq, Repr

/-- `GameStatistics` (lines 24-34) minus the wall-clock fields `id` and
`date`, which the embedding abstracts away. -/
structure GameStatistics where
  avgBuzzTime : Rat
  score : Int
  incorrectBuzzes : Nat
  correctStarters : Nat
  totalStarters : Nat
  correctBonuses : Nat
  totalBonuses : Nat
  deriving DecidableEq, Repr

/-- The component's mutable state (the `useState` hooks, lines 47-69),
minus pure display toggles (`soundEnabled`, `showAllHistory`, `showAnswer`
is kept) and the wall-clock `elapsedTime`.  `drawnBonuses` is a history
variable absent from the source: it records, in order, the bonus sets the
round has drawn (appended exactly when `handleAnswer` removes a set from
the pool), so that uniqueness of the draws can be stated. -/
structure EngineState where
  starters : List Question
  bonuses : List BonusSet
  gameState : GameState
  currentQuestion : Nat
  score : Int
  showAnswer : Bool
  currentBonus : Nat
  timerRunning : Bool
  buzzTimes : List Nat
  showBonusAnswer : Bool
  statistics : List GameStatistics
  incorrectBuzzes : Nat
  correctStarters : Nat
  totalStarters : Nat
  correctBonuses : Nat
  totalBonuses : Nat
  currentBonusSet : Option BonusSet
  drawnBonuses : List BonusSet
  deriving DecidableEq, Repr

/-- `getAverageBuzzTime` (lines 250-253): 0 for an empty list, else the
mean of the recorded latencies. -/
def getAverageBuzzTime (buzzTimes : List Nat) : Rat :=
  if buzzTimes.length = 0 then 0
  else (buzzTimes.sum : Rat) / (buzzTimes.length : Rat)

/-- The statistics record built by the `useEffect` at lines 86-96 from the
current (post-transition) state. -/
def mkStat (s : EngineState) : GameStatistics :=
  { avgBuzzTime := getAverageBuzzTime s.buzzTimes
    score := s.score
    incorrectBuzzes := s.incorrectBuzzes
    correctStarters := s.correctStarters
    totalStarters := s.totalStarters
    correctBonuses := s.correctBonuses
    totalBonuses := s.totalBonuses }

/-- The `useEffect` at lines 82-103: when a step changes `gameState` to
`ready` and at least one buzz latency was recorded, exactly one statistics
record is appended to the persisted list.  `pre` is the state before the
step, `post` the state produced by the handler. -/
def applyStatsEffect (pre post : EngineState) : EngineState :=
  if pre.gameState ≠ GameState.ready ∧ post.gameState = GameState.ready ∧
      0 < post.buzzTimes.length then
    { post with statistics := post.statistics ++ [mkStat post] }
  else post

/-- `startGame` (lines 105-120), with the result of the random shuffle of
`SAMPLE_STARTERS` passed in.  Resets score, counters, buzz list and both
pools, and starts the countdown (`startTimer`, lines 135-150, sets
`timerRunning`). -/
def startGame (SAMPLE_BONUSES : List BonusSet) (s : EngineState)
    (shuffled : List Question) : EngineState :=
  { s with
    gameState := GameState.playing
    score := 0
    currentQuestion := 0
    showAnswer := false
    buzzTimes := []
    incorrectBuzzes := 0
    correctStarters := 0
    totalStarters := 0
    correctBonuses := 0
    totalBonuses := 0
    starters := shuffled
    bonuses := SAMPLE_BONUSES
    drawnBonuses := []
    timerRunning := true }

/-- `handleTimeUp` (lines 152-156), together with the timer callback that
invokes it (lines 144-147) clearing the interval and `timerRunning`. -/
def handleTimeUp (s : EngineState) : EngineState :=
  { s with
    gameState := GameState.answer
    showAnswer := true
    totalStarters := s.totalStarters + 1
    timerRunning := false }

/-- `handleBuzz` (lines 158-174), with the measured latency `t` passed in.
No-op outside `playing`. -/
def handleBuzz (s : EngineState) (t : Nat) : EngineState :=
  if s.gameState = GameState.playing then
    { s with
      timerRunning := false
      buzzTimes := s.buzzTimes ++ [t]
      showAnswer := true
      gameState := GameState.answer
      totalStarters := s.totalStarters + 1 }
  else s

/-- `handleNextQuestion` (lines 230-240): reads the starter pool of the
state it is given.  Restarts the countdown when the pool is non-empty,
otherwise returns to `ready`. -/
def handleNextQuestion (s : EngineState) : EngineState :=
  if 0 < s.starters.length then
    { s with
      currentQuestion := 0
      showAnswer := false
      showBonusAnswer := false
      gameState := GameState.playing
      timerRunning := true }
  else
    { s with gameState := GameState.ready }

/-- `handleNextStep` (lines 226-228). -/
def handleNextStep (s : EngineState) : EngineState :=
  { s with gameState := GameState.session }

/-- `handleAnswer` (lines 176-206), with the random bonus-draw index
resolved by `k` (the code draws `Math.floor(Math.random() * bonuses.length)`,
a uniform index below the pool length; `k % length` ranges over exactly
those indices).  Faithful to React snapshot semantics: the nested
`handleNextQuestion()` call at line 196 reads the `starters` closure
variable, i.e. the pool BEFORE the removal queued at lines 203-205, and the
removal applies in every branch that passes the guard. -/
def handleAnswer (s : EngineState) (correct : Bool) (k : Nat) : EngineState :=
  match s.starters.get? s.currentQuestion with
  | none => s
  | some q =>
    let afterBranch :=
      if correct then
        let s2 := { s with
          score := s.score + q.points
          correctStarters := s.correctStarters + 1 }
        if hb : 0 < s.bonuses.length then
          let i := k % s.bonuses.length
          let selectedBonus := s.bonuses.get ⟨i, Nat.mod_lt k hb⟩
          { s2 with
            bonuses := s.bonuses.eraseIdx i
            currentBonusSet := some selectedBonus
            gameState := GameState.bonus
            currentBonus := 0
            showBonusAnswer := false
            drawnBonuses := s.drawnBonuses ++ [selectedBonus] }
        else
          handleNextQuestion s2
      else
        handleNextStep { s with incorrectBuzzes := s.incorrectBuzzes + 1 }
    { afterBranch with starters := s.starters.eraseIdx s.currentQuestion }

/-- `handleBonusAnswer` (lines 208-224).  Returns unchanged when the
REMAINING bonus pool is empty (line 209 guards on `bonuses.length`, not on
the active `currentBonusSet`). -/
def handleBonusAnswer (s : EngineState) (correct : Bool) : EngineState :=
  if s.bonuses.length = 0 then s
  else
    let s1 :=
      if correct then
        { s with
          score := s.score + 5
          correctBonuses := s.correctBonuses + 1 }
      else s
    let s2 := { s1 with totalBonuses := s1.totalBonuses + 1 }
    if s.currentBonus < 2 then
      { s2 with currentBonus := s.currentBonus + 1, showBonusAnswer := false }
    else
      { s2 with gameState := GameState.session }

/-- `endSession` (lines 242-244). -/
def endSession (s : EngineState) : EngineState :=
  { s with gameState := GameState.ready }

/-- The user intents the Presenter can forward to the engine (plus the
countdown-expiry tick), per the buttons rendered in each state and the
timer callback.  `start` carries the shuffle result, `buzz` the measured
latency, `judgeStarter` the bonus-draw randomness. -/
inductive Event where
  | start (shuffled : List Question)
  | buzz (t : Nat)
  | timeUp
  | judgeStarter (correct : Bool) (k : Nat)
  | revealBonus
  | judgeBonus (correct : Bool)
  | continueRound
  | endSession
  deriving DecidableEq, Repr

/-- One engine step: the event is enabled exactly when the UI offers it
(conditional rendering, lines 316-435) or, for `timeUp`, when the countdown
is running in `playing`; a disabled event is rejected (`none`).
Enabledness from the render tree:
  Start button only in `ready` (line 325); BUZZ only in `playing`
  (lines 362-380); starter judgment buttons whenever state is `answer`
  (lines 383-398); the bonus Show Answer button in `bonus` with an active
  set and no reveal yet (lines 402-419); the bonus judgment buttons in
  `bonus` with an active set only after the reveal (lines 420-429);
  Continue and End Session only in `session` (lines 342-347).
`revealBonusAnswer` is the inline `setShowBonusAnswer(true)` of line 415. -/
def step (SAMPLE_STARTERS : List Question) (SAMPLE_BONUSES : List BonusSet)
    (s : EngineState) (e : Event) : Option EngineState :=
  match e with
  | Event.start shuffled =>
      if s.gameState = GameState.ready ∧ shuffled.Perm SAMPLE_STARTERS then
        some (startGame SAMPLE_BONUSES s shuffled)
      else none
  | Event.buzz t =>
      if s.gameState = GameState.playing then some (handleBuzz s t) else none
  | Event.timeUp =>
      if s.gameState = GameState.playing ∧ s.timerRunning = true then
        some (handleTimeUp s)
      else none
  | Event.judgeStarter correct k =>
      if s.gameState = GameState.answer then some (handleAnswer s correct k)
      else none
  | Event.revealBonus =>
      if s.gameState = GameState.bonus ∧ s.currentBonusSet ≠ none ∧
          s.showBonusAnswer = false then
        some { s with showBonusAnswer := true }
      else none
  | Event.judgeBonus correct =>
      if s.gameState = GameState.bonus ∧ s.currentBonusSet ≠ none ∧
          s.showBonusAnswer = true then
        some (handleBonusAnswer s correct)
      else none
  | Event.continueRound =>
      if s.gameState = GameState.session then some (handleNextQuestion s)
      else none
  | Event.endSession =>
      if s.gameState = GameState.session then some (endSession s) else none

/-- A full engine step: the handler for the event followed by the
statistics-append effect (which observes the game-state change). -/
def engineStep (SAMPLE_STARTERS : List Question)
    (SAMPLE_BONUSES : List BonusSet) (s : EngineState) (e : Event) :
    Option EngineState :=
  (step SAMPLE_STARTERS SAMPLE_BONUSES s e).map (applyStatsEffect s)

/-- The initial state (lines 47-69): `ready`, empty counters, pools loaded
from the bank.  The persisted history is abstracted as starting empty
(an absent store loads as the empty list, lines 60-63). -/
def initState (SAMPLE_STARTERS : List Question)
    (SAMPLE_BONUSES : List BonusSet) : EngineState :=
  { starters := SAMPLE_STARTERS
    bonuses := SAMPLE_BONUSES
    gameState := GameState.ready
    currentQuestion := 0
    score := 0
    showAnswer := false
    currentBonus := 0
    timerRunning := false
    buzzTimes := []
    showBonusAnswer := false
    statistics := []
    incorrectBuzzes := 0
    correctStarters := 0
    totalStarters := 0
    correctBonuses := 0
    totalBonuses := 0
    currentBonusSet := none
    drawnBonuses := [] }

/-- States reachable from the initial state through engine steps. -/
inductive Reachable (SAMPLE_STARTERS : List Question)
    (SAMPLE_BONUSES : List BonusSet) : EngineState → Prop where
  | init : Reachable SAMPLE_STARTERS SAMPLE_BONUSES
      (initState SAMPLE_STARTERS SAMPLE_BONUSES)
  | next {s s' : EngineState} {e : Event} :
      Reachable SAMPLE_STARTERS SAMPLE_BONUSES s →
      engineStep SAMPLE_STARTERS SAMPLE_BONUSES s e = some s' →
      Reachable SAMPLE_STARTERS SAMPLE_BONUSES s'

/-- Run a sequence of events from a state; `none` as soon as one is
rejected. -/
def runTrace (SAMPLE_STARTERS : List Question)
    (SAMPLE_BONUSES : List BonusSet) (s : EngineState) :
    List Event → Option EngineState
  | [] => some s
  | e :: es =>
    match engineStep SAMPLE_STARTERS SAMPLE_BONUSES s e with
    | none => none
    | some s' => runTrace SAMPLE_STARTERS SAMPLE_BONUSES s' es

/-! ## Helper lemmas -/

theorem applyStatsEffect_eq (pre post : EngineState) :
    applyStatsEffect pre post = post ∨
    applyStatsEffect pre post =
      { post with statistics := post.statistics ++ [mkStat post] } := by
  unfold applyStatsEffect
  split
  · exact Or.inr rfl
  · exact Or.inl rfl

theorem applyStatsEffect_gameState (pre post : EngineState) :
    (applyStatsEffect pre post).gameState = post.gameState := by
  rcases applyStatsEffect_eq pre post with h | h <;> rw [h]

theorem applyStatsEffect_score (pre post : EngineState) :
    (applyStatsEffect pre post).score = post.score := by
  rcases applyStatsEffect_eq pre post with h | h <;> rw [h]

theorem applyStatsEffect_of_not_ready {post : EngineState} (pre : EngineState)
    (h : ¬post.gameState = GameState.ready) :
    applyStatsEffect pre post = post := by
  unfold applyStatsEffect
  split
  next hc => exact absurd hc.2.1 h
  next => rfl

/-- A list is a permutation of its `i`-th element consed onto the list with
index `i` erased. -/
theorem perm_get_cons_eraseIdx {α : Type} :
    ∀ (l : List α) (i : Nat) (h : i < l.length),
      l.Perm (l.get ⟨i, h⟩ :: l.eraseIdx i)
  | [], i, h => absurd h (by simp)
  | a :: l, 0, _ => by simp [List.eraseIdx]
  | a :: l, i + 1, h => by
    have ih := perm_get_cons_eraseIdx l i (Nat.lt_of_succ_lt_succ h)
    have h1 : (a :: l).Perm (a :: (l.get ⟨i, Nat.lt_of_succ_lt_succ h⟩ ::
        l.eraseIdx i)) := ih.cons a
    exact h1.trans (List.Perm.swap _ _ _)

/-! ## Equation lemmas for the handlers -/

theorem handleBuzz_eq (s : EngineState) (t : Nat)
    (h : s.gameState = GameState.playing) :
    handleBuzz s t =
      { s with
        timerRunning := false
        buzzTimes := s.buzzTimes ++ [t]
        showAnswer := true
        gameState := GameState.answer
        totalStarters := s.totalStarters + 1 } := by
  unfold handleBuzz
  rw [if_pos h]

theorem handleNextQuestion_pos (s : EngineState)
    (h : 0 < s.starters.length) :
    handleNextQuestion s =
      { s with
        currentQuestion := 0
        showAnswer := false
        showBonusAnswer := false
        gameState := GameState.playing
        timerRunning := true } := by
  unfold handleNextQuestion
  rw [if_pos h]

theorem handleNextQuestion_empty (s : EngineState)
    (h : ¬0 < s.starters.length) :
    handleNextQuestion s = { s with gameState := GameState.ready } := by
  unfold handleNextQuestion
  rw [if_neg h]

theorem handleAnswer_stale (s : EngineState) (correct : Bool) (k : Nat)
    (hget : s.starters.get? s.currentQuestion = none) :
    handleAnswer s correct k = s := by
  unfold handleAnswer
  rw [hget]

theorem handleAnswer_correct_bonus (s : EngineState) (k : Nat) {q : Question}
    (hget : s.starters.get? s.currentQuestion = some q)
    (hb : 0 < s.bonuses.length) :
    handleAnswer s true k =
      { s with
        score := s.score + q.points
        correctStarters := s.correctStarters + 1
        bonuses := s.bonuses.eraseIdx (k % s.bonuses.length)
        currentBonusSet :=
          some (s.bonuses.get ⟨k % s.bonuses.length, Nat.mod_lt k hb⟩)
        gameState := GameState.bonus
        currentBonus := 0
        showBonusAnswer := false
        drawnBonuses := s.drawnBonuses ++
          [s.bonuses.get ⟨k % s.bonuses.length, Nat.mod_lt k hb⟩]
        starters := s.starters.eraseIdx s.currentQuestion } := by
  unfold handleAnswer
  rw [hget]
  simp only [if_true]
  rw [dif_pos hb]

theorem handleAnswer_correct_noBonus (s : EngineState) (k : Nat)
    {q : Question} (hget : s.starters.get? s.currentQuestion = some q)
    (hb : ¬0 < s.bonuses.length) :
    handleAnswer s true k =
      { s with
        score := s.score + q.points
        correctStarters := s.correctStarters + 1
        currentQuestion := 0
        showAnswer := false
        showBonusAnswer := false
        gameState := GameState.playing
        timerRunning := true
        starters := s.starters.eraseIdx s.currentQuestion } := by
  have hlen : 0 < s.starters.length := by
    cases hl : s.starters with
    | nil => rw [hl] at hget; simp [List.get?] at hget
    | cons a l => simp [hl]
  unfold handleAnswer
  rw [hget]
  simp only [if_true]
  rw [dif_neg hb]
  unfold handleNextQuestion
  rw [if_pos hlen]

theorem handleAnswer_incorrect (s : EngineState) (k : Nat) {q : Question}
    (hget : s.starters.get? s.currentQuestion = some q) :
    handleAnswer s false k =
      { s with
        incorrectBuzzes := s.incorrectBuzzes + 1
        gameState := GameState.session
        starters := s.starters.eraseIdx s.currentQuestion } := by
  unfold handleAnswer
  rw [hget]
  rfl

theorem handleBonusAnswer_emptyPool (s : EngineState) (correct : Bool)
    (h : s.bonuses.length = 0) : handleBonusAnswer s correct = s := by
  unfold handleBonusAnswer
  rw [if_pos h]

theorem handleBonusAnswer_correct_mid (s : EngineState)
    (h : ¬s.bonuses.length = 0) (hcb : s.currentBonus < 2) :
    handleBonusAnswer s true =
      { s with
        score := s.score + 5
        correctBonuses := s.correctBonuses + 1
        totalBonuses := s.totalBonuses + 1
        currentBonus := s.currentBonus + 1
        showBonusAnswer := false } := by
  unfold handleBonusAnswer
  rw [if_neg h]
  simp only [if_true]
  rw [if_pos hcb]

theorem handleBonusAnswer_correct_last (s : EngineState)
    (h : ¬s.bonuses.length = 0) (hcb : ¬s.currentBonus < 2) :
    handleBonusAnswer s true =
      { s with
        score := s.score + 5
        correctBonuses := s.correctBonuses + 1
        totalBonuses := s.totalBonuses + 1
        gameState := GameState.session } := by
  unfold handleBonusAnswer
  rw [if_neg h]
  simp only [if_true]
  rw [if_neg hcb]

theorem handleBonusAnswer_incorrect_mid (s : EngineState)
    (h : ¬s.bonuses.length = 0) (hcb : s.currentBonus < 2) :
    handleBonusAnswer s false =
      { s with
        totalBonuses := s.totalBonuses + 1
        currentBonus := s.currentBonus + 1
        showBonusAnswer := false } := by
  unfold handleBonusAnswer
  rw [if_neg h]
  simp only [Bool.false_eq_true, if_false]
  rw [if_pos hcb]

theorem handleBonusAnswer_incorrect_last (s : EngineState)
    (h : ¬s.bonuses.length = 0) (hcb : ¬s.currentBonus < 2) :
    handleBonusAnswer s false =
      { s with
        totalBonuses := s.totalBonuses + 1
        gameState := GameState.session } := by
  unfold handleBonusAnswer
  rw [if_neg h]
  simp only [Bool.false_eq_true, if_false]
  rw [if_neg hcb]

/-! ## The round invariant -/

/-- Invariant maintained by every engine step: the judged-correct counters
never exceed the presented totals (strictly below while a starter judgment
is pending in `answer`), the drawn bonus sets together with the remaining
pool are a permutation of the loaded bank, and every remaining starter
comes from the loaded bank. -/
def Inv (SAMPLE_STARTERS : List Question) (SAMPLE_BONUSES : List BonusSet)
    (s : EngineState) : Prop :=
  s.correctStarters ≤ s.totalStarters ∧
  s.correctBonuses ≤ s.totalBonuses ∧
  (s.gameState = GameState.answer → s.correctStarters < s.totalStarters) ∧
  (s.drawnBonuses ++ s.bonuses).Perm SAMPLE_BONUSES ∧
  (∀ q ∈ s.starters, q ∈ SAMPLE_STARTERS)

theorem inv_init (SAMPLE_STARTERS : List Question)
    (SAMPLE_BONUSES : List BonusSet) :
    Inv SAMPLE_STARTERS SAMPLE_BONUSES
      (initState SAMPLE_STARTERS SAMPLE_BONUSES) := by
  refine ⟨Nat.le_refl 0, Nat.le_refl 0, ?_, ?_, ?_⟩
  · intro h; exact absurd h (by simp [initState])
  · simp [initState]
  · intro q hq; exact hq

theorem inv_applyStatsEffect {SS : List Question} {SB : List BonusSet}
    (pre : EngineState) {post : EngineState} (h : Inv SS SB post) :
    Inv SS SB (applyStatsEffect pre post) := by
  rcases applyStatsEffect_eq pre post with heq | heq <;> rw [heq]
  · exact h
  · exact h

theorem inv_step {SS : List Question} {SB : List BonusSet}
    {s s' : EngineState} {e : Event} (hinv : Inv SS SB s)
    (hstep : engineStep SS SB s e = some s') : Inv SS SB s' := by
  obtain ⟨h1, h2, h3, h4, h5⟩ := hinv
  cases e with
  | start shuffled =>
    simp only [engineStep, step] at hstep
    split at hstep
    next hc =>
      simp only [Option.map_some', Option.some.injEq] at hstep
      subst hstep
      refine inv_applyStatsEffect _ ?_
      refine ⟨Nat.le_refl 0, Nat.le_refl 0, ?_, ?_, ?_⟩
      · intro h
        exact absurd h (by simp [startGame])
      · show (([] : List BonusSet) ++ SB).Perm SB
        simp
      · intro q hq
        exact hc.2.mem_iff.mp hq
    next => exact absurd hstep (by simp)
  | buzz t =>
    simp only [engineStep, step] at hstep
    split at hstep
    next hc =>
      simp only [Option.map_some', Option.some.injEq] at hstep
      subst hstep
      refine inv_applyStatsEffect _ ?_
      rw [handleBuzz_eq s t hc]
      exact ⟨Nat.le_succ_of_le h1, h2, fun _ => Nat.lt_succ_of_le h1, h4, h5⟩
    next => exact absurd hstep (by simp)
  | timeUp =>
    simp only [engineStep, step] at hstep
    split at hstep
    next hc =>
      simp only [Option.map_some', Option.some.injEq] at hstep
      subst hstep
      refine inv_applyStatsEffect _ ?_
      show Inv SS SB (handleTimeUp s)
      unfold handleTimeUp
      exact ⟨Nat.le_succ_of_le h1, h2, fun _ => Nat.lt_succ_of_le h1, h4, h5⟩
    next => exact absurd hstep (by simp)
  | judgeStarter correct k =>
    simp only [engineStep, step] at hstep
    split at hstep
    next hc =>
      simp only [Option.map_some', Option.some.injEq] at hstep
      subst hstep
      refine inv_applyStatsEffect _ ?_
      have hstrict := h3 hc
      have hmemErase : ∀ r ∈ s.starters.eraseIdx s.currentQuestion,
          r ∈ SS := fun r hr => h5 r (List.mem_of_mem_eraseIdx hr)
      cases hget : s.starters.get? s.currentQuestion with
      | none =>
        rw [handleAnswer_stale s correct k hget]
        exact ⟨h1, h2, h3, h4, h5⟩
      | some q =>
        cases correct with
        | true =>
          by_cases hb : 0 < s.bonuses.length
          · rw [handleAnswer_correct_bonus s k hget hb]
            refine ⟨hstrict, h2, ?_, ?_, hmemErase⟩
            · intro h
              exact absurd h (by simp)
            · show ((s.drawnBonuses ++
                  [s.bonuses.get ⟨k % s.bonuses.length, Nat.mod_lt k hb⟩]) ++
                  s.bonuses.eraseIdx (k % s.bonuses.length)).Perm SB
              have hp := perm_get_cons_eraseIdx s.bonuses
                (k % s.bonuses.length) (Nat.mod_lt k hb)
              have h0 : (s.drawnBonuses ++
                    [s.bonuses.get ⟨k % s.bonuses.length, Nat.mod_lt k hb⟩]) ++
                    s.bonuses.eraseIdx (k % s.bonuses.length)
                  = s.drawnBonuses ++
                    (s.bonuses.get ⟨k % s.bonuses.length, Nat.mod_lt k hb⟩ ::
                      s.bonuses.eraseIdx (k % s.bonuses.length)) := by
                simp
              rw [h0]
              exact (List.Perm.append_left _ hp.symm).trans h4
          · rw [handleAnswer_correct_noBonus s k hget hb]
            exact ⟨hstrict, h2, fun h => absurd h (by simp), h4, hmemErase⟩
        | false =>
          rw [handleAnswer_incorrect s k hget]
          exact ⟨h1, h2, fun h => absurd h (by simp), h4, hmemErase⟩
    next => exact absurd hstep (by simp)
  | revealBonus =>
    simp only [engineStep, step] at hstep
    split at hstep
    next hc =>
      simp only [Option.map_some', Option.some.injEq] at hstep
      subst hstep
      refine inv_applyStatsEffect _ ?_
      exact ⟨h1, h2, fun h => absurd h (by simp [hc.1]), h4, h5⟩
    next => exact absurd hstep (by simp)
  | judgeBonus correct =>
    simp only [engineStep, step] at hstep
    split at hstep
    next hc =>
      simp only [Option.map_some', Option.some.injEq] at hstep
      subst hstep
      refine inv_applyStatsEffect _ ?_
      by_cases hb : s.bonuses.length = 0
      · rw [handleBonusAnswer_emptyPool s correct hb]
        exact ⟨h1, h2, h3, h4, h5⟩
      · have hnotans : s.gameState ≠ GameState.answer := by
          rw [hc.1]
          intro h
          exact absurd h (by simp)
        cases correct with
        | true =>
          by_cases hcb : s.currentBonus < 2
          · rw [handleBonusAnswer_correct_mid s hb hcb]
            exact ⟨h1, Nat.succ_le_succ h2, fun h => absurd h hnotans, h4, h5⟩
          · rw [handleBonusAnswer_correct_last s hb hcb]
            exact ⟨h1, Nat.succ_le_succ h2, fun h => absurd h (by simp),
              h4, h5⟩
        | false =>
          by_cases hcb : s.currentBonus < 2
          · rw [handleBonusAnswer_incorrect_mid s hb hcb]
            exact ⟨h1, Nat.le_succ_of_le h2, fun h => absurd h hnotans,
              h4, h5⟩
          · rw [handleBonusAnswer_incorrect_last s hb hcb]
            exact ⟨h1, Nat.le_succ_of_le h2, fun h => absurd h (by simp),
              h4, h5⟩
    next => exact absurd hstep (by simp)
  | continueRound =>
    simp only [engineStep, step] at hstep
    split at hstep
    next hc =>
      simp only [Option.map_some', Option.some.injEq] at hstep
      subst hstep
      refine inv_applyStatsEffect _ ?_
      by_cases hlen : 0 < s.starters.length
      · rw [handleNextQuestion_pos s hlen]
        exact ⟨h1, h2, fun h => absurd h (by simp), h4, h5⟩
      · rw [handleNextQuestion_empty s hlen]
        exact ⟨h1, h2, fun h => absurd h (by simp), h4, h5⟩
    next => exact absurd hstep (by simp)
  | endSession =>
    simp only [engineStep, step] at hstep
    split at hstep
    next hc =>
      simp only [Option.map_some', Option.some.injEq] at hstep
      subst hstep
      refine inv_applyStatsEffect _ ?_
      show Inv SS SB (endSession s)
      unfold endSession
      exact ⟨h1, h2, fun h => absurd h (by simp), h4, h5⟩
    next => exact absurd hstep (by simp)

theorem reachable_inv {SS : List Question} {SB : List BonusSet}
    {s : EngineState} (h : Reachable SS SB s) : Inv SS SB s := by
  induction h with
  | init => exact inv_init SS SB
  | next _ hstep ih => exact inv_step ih hstep

theorem applyStatsEffect_append (pre post : EngineState)
    (h1 : pre.gameState ≠ GameState.ready)
    (h2 : post.gameState = GameState.ready) (h3 : post.buzzTimes ≠ []) :
    applyStatsEffect pre post =
      { post with statistics := post.statistics ++ [mkStat post] } := by
  unfold applyStatsEffect
  rw [if_pos ⟨h1, h2, List.length_pos.mpr h3⟩]

theorem applyStatsEffect_no_buzzes (pre post : EngineState)
    (h : post.buzzTimes = []) : applyStatsEffect pre post = post := by
  unfold applyStatsEffect
  split
  next hcond =>
    rw [h] at hcond
    exact absurd hcond.2.2 (by simp)
  next => rfl

/-! ## Concrete instances used by the witnesses and counterexamples

A one-question starter bank worth 10 points and a single bonus set of three
sub-questions: the configurations of the spec's Scenarios A and B. -/

def q10 : Question := { question := "s1", answer := "a1", points := 10 }

def bs3 : BonusSet :=
  { topic := "t1"
    questions := [{ question := "b1", answer := "x1" },
                  { question := "b2", answer := "x2" },
                  { question := "b3", answer := "x3" }] }

/-- After `start` on the banks `[q10]`, `[bs3]`. -/
def sPlaying : EngineState := startGame [bs3] (initState [q10] [bs3]) [q10]

/-- After a buzz at 500 ms. -/
def sAnswer : EngineState := handleBuzz sPlaying 500

/-- After the starter is judged correct: the only bonus set is drawn, the
remaining pool is empty. -/
def sBonus : EngineState := handleAnswer sAnswer true 0

/-- After revealing the first bonus sub-answer. -/
def sBonusRevealed : EngineState := { sBonus with showBonusAnswer := true }

/-- Scenario A states: the same round with an empty bonus bank. -/
def tPlaying : EngineState := startGame [] (initState [q10] []) [q10]

def tAnswer : EngineState := handleBuzz tPlaying 500

/-- After the starter is judged incorrect: RoundSummary. -/
def tSession : EngineState := handleAnswer tAnswer false 0

/-- After End Session from the summary: the stats-append effect fires. -/
def tReady : EngineState := applyStatsEffect tSession (endSession tSession)

/-! ## Claims -/

/-- Claim C1.  The spec's Scenario B fails on the code: with a starter pool
of one question and a bonus pool of one 3-sub-question set, the correct
starter judgment does enter BonusRound (drawing the only set, score 10),
but every subsequent `judgeBonus` is the identity on the state, because
`handleBonusAnswer` line 209 returns when the REMAINING pool is empty.  The
round can never reach Idle with score `starter.points + 15`; score stays 10
and `totalBonuses` stays 0. -/
theorem C1_scenarioB_bonus_judging_is_noop :
    ((runTrace [q10] [bs3] (initState [q10] [bs3])
        [Event.start [q10], Event.buzz 500, Event.judgeStarter true 0,
          Event.revealBonus]).map
      (fun s => (s.gameState, s.bonuses, s.score, s.correctBonuses,
        s.totalBonuses)) =
      some (GameState.bonus, [], 10, 0, 0)) ∧
    runTrace [q10] [bs3] (initState [q10] [bs3])
        [Event.start [q10], Event.buzz 500, Event.judgeStarter true 0,
          Event.revealBonus, Event.judgeBonus true] =
      runTrace [q10] [bs3] (initState [q10] [bs3])
        [Event.start [q10], Event.buzz 500, Event.judgeStarter true 0,
          Event.revealBonus] := by
  constructor
  · decide
  · decide

/-- Claim C2.  The spec's Scenario A fails on the code: with a one-starter
pool and no bonuses, after buzz and a correct judgment the engine does NOT
go to Idle.  `handleNextQuestion` invoked from inside `handleAnswer`
(line 196) reads the `starters` snapshot from BEFORE the removal queued at
lines 203-205, sees a non-empty pool, and re-enters `playing` with an empty
pool; no statistics entry is appended.  The counters themselves are 1/1 as
the claim says. -/
theorem C2_scenarioA_not_idle :
    (runTrace [q10] [] (initState [q10] [])
        [Event.start [q10], Event.buzz 500, Event.judgeStarter true 0]).map
      (fun s => (s.gameState, s.starters, s.statistics, s.correctStarters,
        s.totalStarters)) =
      some (GameState.playing, [], [], 1, 1) := by
  decide

/-- Claim C3: in BonusRound, a `judgeBonus` intent before the answer of the
current sub-question is revealed is rejected: the judgment buttons are only
rendered once `showBonusAnswer` is set (line 420), so the step relation
rejects the event and the state is unchanged. -/
theorem C3_judgeBonus_before_reveal_rejected (SS : List Question)
    (SB : List BonusSet) (s : EngineState) (c : Bool)
    (_hg : s.gameState = GameState.bonus)
    (hr : s.showBonusAnswer = false) :
    engineStep SS SB s (Event.judgeBonus c) = none := by
  simp only [engineStep, step]
  rw [if_neg]
  · rfl
  · intro hcon
    rw [hr] at hcon
    exact absurd hcon.2.2 (by simp)

theorem C3_witness :
    engineStep [q10] [bs3] sBonus (Event.judgeBonus true) = none :=
  C3_judgeBonus_before_reveal_rejected [q10] [bs3] sBonus true
    (by decide) (by decide)

/-- Claim C4: any step that takes the engine from a non-Idle state to Idle
appends exactly one statistics record — built from the round's accumulated
counters and the mean of the recorded buzz latencies — when at least one
buzz latency was recorded, and appends nothing when none was; the average
buzz time of an empty latency list is 0. -/
theorem C4_stats_appended_on_idle_entry (SS : List Question)
    (SB : List BonusSet) (s s' : EngineState) (e : Event)
    (hstep : engineStep SS SB s e = some s')
    (hpre : s.gameState ≠ GameState.ready)
    (hpost : s'.gameState = GameState.ready) :
    (s.buzzTimes ≠ [] →
      s'.statistics = s.statistics ++
        [{ avgBuzzTime := getAverageBuzzTime s.buzzTimes
           score := s.score
           incorrectBuzzes := s.incorrectBuzzes
           correctStarters := s.correctStarters
           totalStarters := s.totalStarters
           correctBonuses := s.correctBonuses
           totalBonuses := s.totalBonuses }]) ∧
    (s.buzzTimes = [] → s'.statistics = s.statistics) ∧
    getAverageBuzzTime [] = 0 := by
  cases e with
  | start shuffled =>
    simp only [engineStep, step] at hstep
    split at hstep
    next hc => exact absurd hc.1 hpre
    next => exact absurd hstep (by simp)
  | buzz t =>
    simp only [engineStep, step] at hstep
    split at hstep
    next hc =>
      simp only [Option.map_some', Option.some.injEq] at hstep
      subst hstep
      rw [applyStatsEffect_gameState, handleBuzz_eq s t hc] at hpost
      exact absurd hpost (by simp)
    next => exact absurd hstep (by simp)
  | timeUp =>
    simp only [engineStep, step] at hstep
    split at hstep
    next hc =>
      simp only [Option.map_some', Option.some.injEq] at hstep
      subst hstep
      rw [applyStatsEffect_gameState] at hpost
      exact absurd hpost (by simp [handleTimeUp])
    next => exact absurd hstep (by simp)
  | judgeStarter correct k =>
    simp only [engineStep, step] at hstep
    split at hstep
    next hc =>
      simp only [Option.map_some', Option.some.injEq] at hstep
      subst hstep
      rw [applyStatsEffect_gameState] at hpost
      cases hget : s.starters.get? s.currentQuestion with
      | none =>
        rw [handleAnswer_stale s correct k hget] at hpost
        exact absurd hpost hpre
      | some q =>
        cases correct with
        | true =>
          by_cases hb : 0 < s.bonuses.length
          · rw [handleAnswer_correct_bonus s k hget hb] at hpost
            exact absurd hpost (by simp)
          · rw [handleAnswer_correct_noBonus s k hget hb] at hpost
            exact absurd hpost (by simp)
        | false =>
          rw [handleAnswer_incorrect s k hget] at hpost
          exact absurd hpost (by simp)
    next => exact absurd hstep (by simp)
  | revealBonus =>
    simp only [engineStep, step] at hstep
    split at hstep
    next hc =>
      simp only [Option.map_some', Option.some.injEq] at hstep
      subst hstep
      rw [applyStatsEffect_gameState] at hpost
      exact absurd (show s.gameState = GameState.ready from hpost) hpre
    next => exact absurd hstep (by simp)
  | judgeBonus correct =>
    simp only [engineStep, step] at hstep
    split at hstep
    next hc =>
      simp only [Option.map_some', Option.some.injEq] at hstep
      subst hstep
      rw [applyStatsEffect_gameState] at hpost
      by_cases hb : s.bonuses.length = 0
      · rw [handleBonusAnswer_emptyPool s correct hb] at hpost
        exact absurd hpost hpre
      · cases correct with
        | true =>
          by_cases hcb : s.currentBonus < 2
          · rw [handleBonusAnswer_correct_mid s hb hcb] at hpost
            exact absurd (show s.gameState = GameState.ready from hpost) hpre
          · rw [handleBonusAnswer_correct_last s hb hcb] at hpost
            exact absurd hpost (by simp)
        | false =>
          by_cases hcb : s.currentBonus < 2
          · rw [handleBonusAnswer_incorrect_mid s hb hcb] at hpost
            exact absurd (show s.gameState = GameState.ready from hpost) hpre
          · rw [handleBonusAnswer_incorrect_last s hb hcb] at hpost
            exact absurd hpost (by simp)
    next => exact absurd hstep (by simp)
  | continueRound =>
    simp only [engineStep, step] at hstep
    split at hstep
    next hc =>
      simp only [Option.map_some', Option.some.injEq] at hstep
      subst hstep
      by_cases hlen : 0 < s.starters.length
      · rw [applyStatsEffect_gameState, handleNextQuestion_pos s hlen]
          at hpost
        exact absurd hpost (by simp)
      · rw [handleNextQuestion_empty s hlen]
        by_cases hbz : s.buzzTimes = []
        · rw [applyStatsEffect_no_buzzes s
            { s with gameState := GameState.ready } hbz]
          exact ⟨fun h => absurd hbz h, fun _ => rfl, rfl⟩
        · rw [applyStatsEffect_append s
            { s with gameState := GameState.ready } hpre rfl hbz]
          exact ⟨fun _ => rfl, fun h => absurd h hbz, rfl⟩
    next => exact absurd hstep (by simp)
  | endSession =>
    simp only [engineStep, step] at hstep
    split at hstep
    next hc =>
      simp only [Option.map_some', Option.some.injEq] at hstep
      subst hstep
      by_cases hbz : s.buzzTimes = []
      · rw [applyStatsEffect_no_buzzes s (endSession s) hbz]
        exact ⟨fun h => absurd hbz h, fun _ => rfl, rfl⟩
      · rw [applyStatsEffect_append s (endSession s) hpre rfl hbz]
        exact ⟨fun _ => rfl, fun h => absurd h hbz, rfl⟩
    next => exact absurd hstep (by simp)

theorem C4_witness :
    (tSession.buzzTimes ≠ [] →
      tReady.statistics = tSession.statistics ++
        [{ avgBuzzTime := getAverageBuzzTime tSession.buzzTimes
           score := tSession.score
           incorrectBuzzes := tSession.incorrectBuzzes
           correctStarters := tSession.correctStarters
           totalStarters := tSession.totalStarters
           correctBonuses := tSession.correctBonuses
           totalBonuses := tSession.totalBonuses }]) ∧
    (tSession.buzzTimes = [] → tReady.statistics = tSession.statistics) ∧
    getAverageBuzzTime [] = 0 :=
  C4_stats_appended_on_idle_entry [q10] [] tSession tReady
    Event.endSession rfl (by decide) (by decide)

/-- Claim C5: countdown expiry in `playing` with a pending starter leads to
`answer` with `totalStarters` incremented and NO buzz latency recorded
(`buzzTimes` unchanged), and a subsequent incorrect judgment leads to
`session` (RoundSummary) with `incorrectBuzzes` incremented by one. -/
theorem C5_timeout_then_incorrect (SS : List Question) (SB : List BonusSet)
    (s : EngineState) (q : Question) (k : Nat)
    (hg : s.gameState = GameState.playing)
    (ht : s.timerRunning = true)
    (hq : s.starters.get? s.currentQuestion = some q) :
    ∃ s' s'',
      engineStep SS SB s Event.timeUp = some s' ∧
      s'.gameState = GameState.answer ∧
      s'.buzzTimes = s.buzzTimes ∧
      s'.totalStarters = s.totalStarters + 1 ∧
      engineStep SS SB s' (Event.judgeStarter false k) = some s'' ∧
      s''.gameState = GameState.session ∧
      s''.incorrectBuzzes = s.incorrectBuzzes + 1 := by
  have hq' : (handleTimeUp s).starters.get? (handleTimeUp s).currentQuestion
      = some q := hq
  have h2 := handleAnswer_incorrect (handleTimeUp s) k hq'
  have hnr : ¬(handleAnswer (handleTimeUp s) false k).gameState =
      GameState.ready := by
    rw [h2]
    simp
  refine ⟨handleTimeUp s, handleAnswer (handleTimeUp s) false k,
    ?_, rfl, rfl, rfl, ?_, ?_, ?_⟩
  · simp only [engineStep, step]
    rw [if_pos ⟨hg, ht⟩, Option.map_some',
      applyStatsEffect_of_not_ready s (by simp [handleTimeUp])]
  · simp only [engineStep, step]
    rw [if_pos (show (handleTimeUp s).gameState = GameState.answer
        from rfl), Option.map_some',
      applyStatsEffect_of_not_ready (handleTimeUp s) hnr]
  · rw [h2]
  · rw [h2]
    rfl

theorem C5_witness :
    ∃ s' s'',
      engineStep [q10] [bs3] sPlaying Event.timeUp = some s' ∧
      s'.gameState = GameState.answer ∧
      s'.buzzTimes = sPlaying.buzzTimes ∧
      s'.totalStarters = sPlaying.totalStarters + 1 ∧
      engineStep [q10] [bs3] s' (Event.judgeStarter false 0) = some s'' ∧
      s''.gameState = GameState.session ∧
      s''.incorrectBuzzes = sPlaying.incorrectBuzzes + 1 :=
  C5_timeout_then_incorrect [q10] [bs3] sPlaying q10 0
    (by decide) (by decide) (by decide)

/-- Claim C6: in every reachable state, `correctStarters ≤ totalStarters`
and `correctBonuses ≤ totalBonuses`. -/
theorem C6_counters_bounded (SS : List Question) (SB : List BonusSet)
    (s : EngineState) (h : Reachable SS SB s) :
    s.correctStarters ≤ s.totalStarters ∧
    s.correctBonuses ≤ s.totalBonuses :=
  ⟨(reachable_inv h).1, (reachable_inv h).2.1⟩

theorem C6_witness :
    sAnswer.correctStarters ≤ sAnswer.totalStarters ∧
    sAnswer.correctBonuses ≤ sAnswer.totalBonuses := by
  have h01 : engineStep [q10] [bs3] (initState [q10] [bs3])
      (Event.start [q10]) = some sPlaying := by decide
  have h12 : engineStep [q10] [bs3] sPlaying (Event.buzz 500) =
      some sAnswer := by decide
  exact C6_counters_bounded [q10] [bs3] sAnswer
    (Reachable.next (Reachable.next Reachable.init h01) h12)

/-- Claim C7.  The bound "totalStarters never exceeds the original starter
pool size" fails on the code: after the stale-pool advance of C2, the
engine sits in `playing` with an empty pool and a running countdown, and a
further buzz increments `totalStarters` to 2 although the round started
with a single starter. -/
theorem C7_totalStarters_exceeds_original_pool :
    (runTrace [q10] [] (initState [q10] [])
        [Event.start [q10], Event.buzz 500, Event.judgeStarter true 0,
          Event.buzz 700]).map (fun s => s.totalStarters) = some 2 ∧
    ([q10] : List Question).length = 1 := by
  constructor
  · decide
  · rfl

/-- Claim C8: the bonus sets drawn during a round together with the
remaining pool are a permutation of the loaded bonus bank — so a drawn set
is removed and can never be drawn again — and, when the bank has no
duplicate sets, the draws of a round are pairwise distinct. -/
theorem C8_bonus_draws_unique (SS : List Question) (SB : List BonusSet)
    (s : EngineState) (h : Reachable SS SB s) :
    (s.drawnBonuses ++ s.bonuses).Perm SB ∧
    (SB.Nodup → s.drawnBonuses.Nodup) := by
  have hperm := (reachable_inv h).2.2.2.1
  refine ⟨hperm, fun hnd => ?_⟩
  have hall : (s.drawnBonuses ++ s.bonuses).Nodup := hperm.symm.nodup hnd
  exact hall.of_append_left

theorem C8_witness :
    (sBonus.drawnBonuses ++ sBonus.bonuses).Perm [bs3] ∧
    ([bs3].Nodup → sBonus.drawnBonuses.Nodup) := by
  have h01 : engineStep [q10] [bs3] (initState [q10] [bs3])
      (Event.start [q10]) = some sPlaying := by decide
  have h12 : engineStep [q10] [bs3] sPlaying (Event.buzz 500) =
      some sAnswer := by decide
  have h23 : engineStep [q10] [bs3] sAnswer (Event.judgeStarter true 0) =
      some sBonus := by decide
  exact C8_bonus_draws_unique [q10] [bs3] sBonus
    (Reachable.next (Reachable.next (Reachable.next Reachable.init h01)
      h12) h23)

/-- Claim C9: within a round (i.e. under every event except `start`, which
resets the score for a new round), the score never decreases, provided
every question of the loaded starter bank carries a non-negative point
value. -/
theorem C9_score_monotone (SS : List Question) (SB : List BonusSet)
    (s s' : EngineState) (e : Event)
    (hreach : Reachable SS SB s)
    (hpts : ∀ q ∈ SS, 0 ≤ q.points)
    (hne : ∀ shuffled, e ≠ Event.start shuffled)
    (hstep : engineStep SS SB s e = some s') :
    s.score ≤ s'.score := by
  cases e with
  | start shuffled => exact absurd rfl (hne shuffled)
  | buzz t =>
    simp only [engineStep, step] at hstep
    split at hstep
    next hc =>
      simp only [Option.map_some', Option.some.injEq] at hstep
      subst hstep
      rw [applyStatsEffect_score, handleBuzz_eq s t hc]
    next => exact absurd hstep (by simp)
  | timeUp =>
    simp only [engineStep, step] at hstep
    split at hstep
    next hc =>
      simp only [Option.map_some', Option.some.injEq] at hstep
      subst hstep
      rw [applyStatsEffect_score]
      exact le_refl _
    next => exact absurd hstep (by simp)
  | judgeStarter correct k =>
    simp only [engineStep, step] at hstep
    split at hstep
    next hc =>
      simp only [Option.map_some', Option.some.injEq] at hstep
      subst hstep
      rw [applyStatsEffect_score]
      cases hget : s.starters.get? s.currentQuestion with
      | none =>
        rw [handleAnswer_stale s correct k hget]
      | some q =>
        have hqmem : q ∈ SS :=
          (reachable_inv hreach).2.2.2.2 q (List.get?_mem hget)
        have hq0 : 0 ≤ q.points := hpts q hqmem
        cases correct with
        | true =>
          by_cases hb : 0 < s.bonuses.length
          · rw [handleAnswer_correct_bonus s k hget hb]
            show s.score ≤ s.score + q.points
            omega
          · rw [handleAnswer_correct_noBonus s k hget hb]
            show s.score ≤ s.score + q.points
            omega
        | false =>
          rw [handleAnswer_incorrect s k hget]
    next => exact absurd hstep (by simp)
  | revealBonus =>
    simp only [engineStep, step] at hstep
    split at hstep
    next hc =>
      simp only [Option.map_some', Option.some.injEq] at hstep
      subst hstep
      rw [applyStatsEffect_score]
    next => exact absurd hstep (by simp)
  | judgeBonus correct =>
    simp only [engineStep, step] at hstep
    split at hstep
    next hc =>
      simp only [Option.map_some', Option.some.injEq] at hstep
      subst hstep
      rw [applyStatsEffect_score]
      by_cases hb : s.bonuses.length = 0
      · rw [handleBonusAnswer_emptyPool s correct hb]
      · cases correct with
        | true =>
          by_cases hcb : s.currentBonus < 2
          · rw [handleBonusAnswer_correct_mid s hb hcb]
            show s.score ≤ s.score + 5
            omega
          · rw [handleBonusAnswer_correct_last s hb hcb]
            show s.score ≤ s.score + 5
            omega
        | false =>
          by_cases hcb : s.currentBonus < 2
          · rw [handleBonusAnswer_incorrect_mid s hb hcb]
          · rw [handleBonusAnswer_incorrect_last s hb hcb]
    next => exact absurd hstep (by simp)
  | continueRound =>
    simp only [engineStep, step] at hstep
    split at hstep
    next hc =>
      simp only [Option.map_some', Option.some.injEq] at hstep
      subst hstep
      rw [applyStatsEffect_score]
      by_cases hlen : 0 < s.starters.length
      · rw [handleNextQuestion_pos s hlen]
      · rw [handleNextQuestion_empty s hlen]
    next => exact absurd hstep (by simp)
  | endSession =>
    simp only [engineStep, step] at hstep
    split at hstep
    next hc =>
      simp only [Option.map_some', Option.some.injEq] at hstep
      subst hstep
      rw [applyStatsEffect_score]
      exact le_refl _
    next => exact absurd hstep (by simp)

theorem C9_witness : sAnswer.score ≤ sBonus.score := by
  have h01 : engineStep [q10] [bs3] (initState [q10] [bs3])
      (Event.start [q10]) = some sPlaying := by decide
  have h12 : engineStep [q10] [bs3] sPlaying (Event.buzz 500) =
      some sAnswer := by decide
  exact C9_score_monotone [q10] [bs3] sAnswer sBonus
    (Event.judgeStarter true 0)
    (Reachable.next (Reachable.next Reachable.init h01) h12)
    (by decide) (fun sh h => Event.noConfusion h) (by decide)

/-- Claim C10: with an empty remaining bonus pool, `judgeBonus` is a
complete no-op even in BonusRound with an active, revealed, unexhausted
bonus set — the state (counters, score, sub-question index, game state)
comes back unchanged, so the active set can never be completed through
judgments. -/
theorem C10_judgeBonus_noop_on_empty_pool (SS : List Question)
    (SB : List BonusSet) (s : EngineState) (c : Bool)
    (hb : s.bonuses = [])
    (hg : s.gameState = GameState.bonus)
    (hcb : s.currentBonusSet ≠ none)
    (hr : s.showBonusAnswer = true) :
    engineStep SS SB s (Event.judgeBonus c) = some s := by
  simp only [engineStep, step]
  rw [if_pos ⟨hg, hcb, hr⟩, Option.map_some',
    handleBonusAnswer_emptyPool s c (by simp [hb]),
    applyStatsEffect_of_not_ready s (by rw [hg]; simp)]

theorem C10_witness :
    engineStep [q10] [bs3] sBonusRevealed (Event.judgeBonus true) =
      some sBonusRevealed :=
  C10_judgeBonus_noop_on_empty_pool [q10] [bs3] sBonusRevealed true
    (by decide) (by decide) (by decide) (by decide)

end UCGame
